import Mathlib

/-!
Verification of the duplicate-video tracking bot (`src/bot.py`).

The development shallowly embeds the SQLite-backed state of the bot:
the `videos` table is a list of rows in rowid (insertion) order, the
`report_messages` table a list of artifact rows, and the per-chat
cooldown maps are functions from chat id to an optional timestamp.
The handlers `video_handler`, `report_command`, `delete_duplicates`
and `stats_command` are translated into pure functions over this
state; external messaging-surface calls (send video, send text,
delete message, admin lookup) are passed in as oracle functions so
that every per-item success/failure pattern can be quantified over.

Opaque TEXT identifiers (`file_unique_id`, `file_id`) are modelled as
naturals; only their decidable equality and total order (SQLite's
ORDER BY / GROUP BY on the column) matter.  Timestamps from
`datetime.now().timestamp()` are rationals, since Python returns
fractional seconds and the cooldown arithmetic truncates with `int()`.
-/

namespace CheckDupVideo

/-- One row of the `videos` table:
`(file_unique_id, file_id, count, first_seen, chat_id, message_id)`
with PRIMARY KEY `(file_unique_id, message_id)`. -/
structure VideoRow where
  file_unique_id : Nat
  file_id : Nat
  count : Nat
  first_seen : Nat
  chat_id : Int
  message_id : Nat
deriving DecidableEq, Repr

/-- `SELECT COUNT(*) FROM videos WHERE file_unique_id = uid`. -/
def countFor (v : List VideoRow) (uid : Nat) : Nat :=
  (v.filter fun r => r.file_unique_id == uid).length

/-- Does a row collide with the primary key `(uid, mid)`? -/
def pkMatches (uid mid : Nat) (r : VideoRow) : Bool :=
  r.file_unique_id == uid && r.message_id == mid

/-- `INSERT OR IGNORE INTO videos VALUES (...)`: append the row unless a
row with the same `(file_unique_id, message_id)` primary key exists. -/
def insertOrIgnore (v : List VideoRow) (r : VideoRow) : List VideoRow :=
  if v.any (pkMatches r.file_unique_id r.message_id) then v else v ++ [r]

/-- `UPDATE videos SET count = total WHERE file_unique_id = uid`. -/
def updateCount (v : List VideoRow) (uid total : Nat) : List VideoRow :=
  v.map fun r => if r.file_unique_id == uid then { r with count := total } else r

/-- The body of `video_handler`: insert-or-ignore the observed occurrence
(with `count` 0), recount the rows sharing its `file_unique_id`, and write
that count onto every row of the group. -/
def video_handler (v : List VideoRow) (uid fid : Nat) (chat : Int) (mid : Nat)
    (now : Nat) : List VideoRow :=
  let v1 := insertOrIgnore v
    { file_unique_id := uid, file_id := fid, count := 0, first_seen := now
      chat_id := chat, message_id := mid }
  updateCount v1 uid (countFor v1 uid)

/-- An inbound media event as delivered to `video_handler`. -/
structure MediaEvent where
  uid : Nat
  fid : Nat
  chat : Int
  mid : Nat
  now : Nat
deriving DecidableEq, Repr

/-- Run a sequence of `video_handler` invocations from the initial empty
`videos` table. -/
def runRecords (evs : List MediaEvent) : List VideoRow :=
  evs.foldl (fun v e => video_handler v e.uid e.fid e.chat e.mid e.now) []

/-- The denormalization invariant: every stored row's `count` column equals
the number of stored rows sharing its `file_unique_id` (across all chats). -/
def countInvariant (v : List VideoRow) : Prop :=
  ∀ r ∈ v, r.count = countFor v r.file_unique_id

/-! ### Lemmas about the recorder -/

theorem countFor_map_eq (v : List VideoRow) (f : VideoRow → VideoRow)
    (hf : ∀ r, (f r).file_unique_id = r.file_unique_id) (k : Nat) :
    countFor (v.map f) k = countFor v k := by
  induction v with
  | nil => rfl
  | cons r rs ih =>
    simp only [countFor, List.map_cons, List.filter_cons] at *
    by_cases h : r.file_unique_id = k
    · simp [hf, h, ih]
    · simp [hf, h, ih]

theorem countFor_updateCount (v : List VideoRow) (uid total k : Nat) :
    countFor (updateCount v uid total) k = countFor v k := by
  apply countFor_map_eq
  intro r
  by_cases h : r.file_unique_id = uid
  · simp [h]
  · simp [h]

theorem countFor_insert_ne (v : List VideoRow) (r : VideoRow) (k : Nat)
    (hk : r.file_unique_id ≠ k) : countFor (insertOrIgnore v r) k = countFor v k := by
  unfold insertOrIgnore
  split
  · rfl
  · simp [countFor, List.filter_append, hk]

theorem mem_updateCount {v : List VideoRow} {uid total : Nat} {r : VideoRow}
    (h : r ∈ updateCount v uid total) :
    (r.file_unique_id = uid ∧ r.count = total) ∨ (r.file_unique_id ≠ uid ∧ r ∈ v) := by
  rcases List.mem_map.mp h with ⟨s, hs, hrs⟩
  by_cases hu : s.file_unique_id = uid
  · left
    subst hrs
    simp [hu]
  · right
    subst hrs
    simp [hu, hs]

theorem countInvariant_video_handler {v : List VideoRow}
    (hv : countInvariant v) (uid fid : Nat) (chat : Int) (mid now : Nat) :
    countInvariant (video_handler v uid fid chat mid now) := by
  intro r hr
  unfold video_handler at hr ⊢
  set r0 : VideoRow :=
    { file_unique_id := uid, file_id := fid, count := 0, first_seen := now
      chat_id := chat, message_id := mid } with hr0
  set v1 := insertOrIgnore v r0 with hv1
  rcases mem_updateCount hr with ⟨he, hc⟩ | ⟨hne, hmem⟩
  · rw [he, hc, countFor_updateCount]
  · rw [countFor_updateCount]
    have hr0ne : r0.file_unique_id ≠ r.file_unique_id := by
      have hr0uid : r0.file_unique_id = uid := rfl
      rw [hr0uid]
      exact fun h => hne h.symm
    have hcount : countFor v1 r.file_unique_id = countFor v r.file_unique_id := by
      rw [hv1]
      exact countFor_insert_ne v r0 r.file_unique_id hr0ne
    have hrv : r ∈ v := by
      rw [hv1] at hmem
      unfold insertOrIgnore at hmem
      split at hmem
      · exact hmem
      · rcases List.mem_append.mp hmem with h | h
        · exact h
        · exfalso
          apply hne
          rw [List.mem_singleton.mp h]
    rw [hcount]
    exact hv r hrv

/-- Helper for folding the invariant through a record sequence. -/
theorem countInvariant_foldl (evs : List MediaEvent) (v : List VideoRow)
    (hv : countInvariant v) :
    countInvariant
      (evs.foldl (fun w e => video_handler w e.uid e.fid e.chat e.mid e.now) v) := by
  induction evs generalizing v with
  | nil => exact hv
  | cons e es ih =>
    exact ih _ (countInvariant_video_handler hv e.uid e.fid e.chat e.mid e.now)

/-- **C2.** For every sequence of `video_handler` invocations starting from
the empty store, after each call completes every stored row's denormalized
`count` equals the number of stored rows sharing its `file_unique_id`,
across all chats.  (Quantifying over all event sequences covers every
intermediate state: the state after the k-th call is `runRecords` of the
length-k prefix.) -/
theorem record_count_denormalization (evs : List MediaEvent) :
    countInvariant (runRecords evs) :=
  countInvariant_foldl evs [] (by intro r hr; cases hr)

/-! ### Idempotence of recording (C3) -/

theorem any_map_of_preserve (v : List VideoRow) (f : VideoRow → VideoRow)
    (p : VideoRow → Bool) (hf : ∀ r, p (f r) = p r) :
    (v.map f).any p = v.any p := by
  induction v with
  | nil => rfl
  | cons r rs ih => simp [List.any_cons, hf, ih]

theorem any_pk_updateCount (v : List VideoRow) (uid total u m : Nat) :
    (updateCount v uid total).any (pkMatches u m) = v.any (pkMatches u m) := by
  apply any_map_of_preserve
  intro r
  by_cases h : r.file_unique_id = uid
  · simp [pkMatches, h]
  · simp [pkMatches, h]

theorem any_pk_insertOrIgnore_self (v : List VideoRow) (r : VideoRow) :
    (insertOrIgnore v r).any (pkMatches r.file_unique_id r.message_id) = true := by
  unfold insertOrIgnore
  split
  · assumption
  · simp [pkMatches]

theorem updateCount_updateCount (v : List VideoRow) (uid total : Nat) :
    updateCount (updateCount v uid total) uid total = updateCount v uid total := by
  unfold updateCount
  rw [List.map_map]
  apply List.map_congr_left
  intro r _
  simp only [Function.comp_apply]
  by_cases h : r.file_unique_id = uid
  · simp [h]
  · simp [h]

theorem countFor_video_handler_self (v : List VideoRow) (uid fid : Nat)
    (chat : Int) (mid now : Nat) (k : Nat) :
    countFor (video_handler v uid fid chat mid now) k =
      countFor (insertOrIgnore v
        { file_unique_id := uid, file_id := fid, count := 0, first_seen := now
          chat_id := chat, message_id := mid }) k := by
  unfold video_handler
  exact countFor_updateCount _ _ _ _

/-- **C3.** Recording the same `(file_unique_id, message_id)` pair a second
time — even with a different `file_id`, chat or timestamp — leaves the
`videos` table exactly as the first call left it: the pre-existing row
(its `first_seen` included) is untouched, and every `count` value is
unchanged. -/
theorem record_idempotent (v : List VideoRow) (uid fid fid' : Nat)
    (chat chat' : Int) (mid now now' : Nat) :
    video_handler (video_handler v uid fid chat mid now) uid fid' chat' mid now' =
      video_handler v uid fid chat mid now := by
  set r0 : VideoRow :=
    { file_unique_id := uid, file_id := fid, count := 0, first_seen := now
      chat_id := chat, message_id := mid } with hr0
  set r1 : VideoRow :=
    { file_unique_id := uid, file_id := fid', count := 0, first_seen := now'
      chat_id := chat', message_id := mid } with hr1
  set v1 := insertOrIgnore v r0 with hv1
  set w := updateCount v1 uid (countFor v1 uid) with hwdef
  have hw : video_handler v uid fid chat mid now = w := rfl
  have hpk : w.any (pkMatches uid mid) = true := by
    rw [hwdef, any_pk_updateCount, hv1]
    have := any_pk_insertOrIgnore_self v r0
    simpa using this
  have hins : insertOrIgnore w r1 = w := by
    unfold insertOrIgnore
    rw [if_pos]
    exact hpk
  have hcw : countFor w uid = countFor v1 uid := by
    rw [hwdef]
    exact countFor_updateCount _ _ _ _
  rw [hw]
  show updateCount (insertOrIgnore w r1) uid (countFor (insertOrIgnore w r1) uid) = w
  rw [hins, hcw, hwdef, updateCount_updateCount]

/-! ### The duplicate-set query (step 1 of /report) -/

/-- Insert a key into an ascending list of distinct keys (no-op if present). -/
def insertKey (k : Nat) : List Nat → List Nat
  | [] => [k]
  | b :: l => if k < b then k :: b :: l else if k = b then b :: l else b :: insertKey k l

/-- The distinct `file_unique_id` values of the table in ascending order: the
order in which SQLite emits the `GROUP BY file_unique_id` groups (it walks
the index on `file_unique_id`). -/
def groupKeys (v : List VideoRow) : List Nat :=
  v.foldr (fun r acc => insertKey r.file_unique_id acc) []

theorem mem_insertKey (a k : Nat) : ∀ l : List Nat, (a ∈ insertKey k l ↔ a = k ∨ a ∈ l)
  | [] => by simp [insertKey]
  | b :: l => by
    unfold insertKey
    by_cases h1 : k < b
    · simp [h1]
    · by_cases h2 : k = b
      · simp only [if_neg h1, if_pos h2, List.mem_cons]
        constructor
        · intro h
          exact Or.inr h
        · rintro (h | h)
          · exact Or.inl (h.trans h2)
          · exact h
      · simp only [if_neg h1, if_neg h2, List.mem_cons, mem_insertKey a k l]
        tauto

theorem pairwise_insertKey (k : Nat) :
    ∀ l : List Nat, l.Pairwise (· < ·) → (insertKey k l).Pairwise (· < ·)
  | [], _ => by simp [insertKey]
  | b :: l, hp => by
    rcases List.pairwise_cons.mp hp with ⟨hb, hl⟩
    unfold insertKey
    by_cases h1 : k < b
    · rw [if_pos h1]
      refine List.pairwise_cons.mpr ⟨?_, hp⟩
      intro c hc
      rcases List.mem_cons.mp hc with h | h
      · rw [h]; exact h1
      · exact h1.trans (hb c h)
    · by_cases h2 : k = b
      · rw [if_neg h1, if_pos h2]; exact hp
      · rw [if_neg h1, if_neg h2]
        refine List.pairwise_cons.mpr ⟨?_, pairwise_insertKey k l hl⟩
        intro c hc
        rcases (mem_insertKey c k l).mp hc with h | h
        · rw [h]
          rcases Nat.lt_trichotomy k b with ht | ht | ht
          · exact absurd ht h1
          · exact absurd ht h2
          · exact ht
        · exact hb c h

theorem pairwise_groupKeys (v : List VideoRow) : (groupKeys v).Pairwise (· < ·) := by
  induction v with
  | nil => exact List.Pairwise.nil
  | cons r rs ih => exact pairwise_insertKey r.file_unique_id (groupKeys rs) ih

theorem mem_groupKeys (k : Nat) (v : List VideoRow) :
    k ∈ groupKeys v ↔ ∃ r ∈ v, r.file_unique_id = k := by
  induction v with
  | nil => simp [groupKeys]
  | cons r rs ih =>
    show k ∈ insertKey r.file_unique_id (groupKeys rs) ↔ _
    rw [mem_insertKey, ih]
    constructor
    · rintro (h | ⟨r', hr', hk⟩)
      · exact ⟨r, List.mem_cons_self r rs, h.symm⟩
      · exact ⟨r', List.mem_cons_of_mem r hr', hk⟩
    · rintro ⟨r', hr', hk⟩
      rcases List.mem_cons.mp hr' with h | h
      · left; rw [← hk, h]
      · right; exact ⟨r', h, hk⟩

/-- One output row of the /report duplicate query. -/
structure DupSet where
  file_unique_id : Nat
  file_id : Nat
  total_count : Nat
deriving DecidableEq, Repr

/-- The representative `file_id` SQLite reports for a group (a bare column
under GROUP BY): the first stored row of the group.  Which row is chosen
never matters for the verified properties. -/
def reprFid (v : List VideoRow) (k : Nat) : Nat :=
  match v.find? fun r => r.file_unique_id == k with
  | some r => r.file_id
  | none => 0

/-- The grouped rows `(file_unique_id, file_id, COUNT(*) AS total_count)`
with `HAVING total_count > 1`, in GROUP BY (ascending key) order, before the
ORDER BY is applied. -/
def dupRowsPre (v : List VideoRow) : List DupSet :=
  (groupKeys v).filterMap fun k =>
    if 1 < countFor v k then
      some { file_unique_id := k, file_id := reprFid v k, total_count := countFor v k }
    else none

/-- Stable insertion into a list sorted by descending `total_count`. -/
def insertByCountDesc (x : DupSet) : List DupSet → List DupSet
  | [] => [x]
  | b :: l => if x.total_count < b.total_count then b :: insertByCountDesc x l else x :: b :: l

/-- Stable sort by descending `total_count`: SQLite's
`ORDER BY total_count DESC` leaves rows with equal counts in their input
(ascending `file_unique_id`) order. -/
def sortByCountDesc : List DupSet → List DupSet
  | [] => []
  | x :: xs => insertByCountDesc x (sortByCountDesc xs)

/-- The /report duplicate query:
`SELECT file_unique_id, file_id, COUNT(*) AS total_count FROM videos
GROUP BY file_unique_id HAVING total_count > 1 ORDER BY total_count DESC`. -/
def listDuplicateSets (v : List VideoRow) : List DupSet :=
  sortByCountDesc (dupRowsPre v)

/-- The deterministic report order: strictly more duplicated first and, for
equal counts, ascending `file_unique_id`. -/
def dupOrder (a b : DupSet) : Prop :=
  b.total_count < a.total_count ∨
    (a.total_count = b.total_count ∧ a.file_unique_id < b.file_unique_id)

theorem mem_insertByCountDesc (a x : DupSet) :
    ∀ l : List DupSet, (a ∈ insertByCountDesc x l ↔ a = x ∨ a ∈ l)
  | [] => by simp [insertByCountDesc]
  | b :: l => by
    unfold insertByCountDesc
    split
    · simp only [List.mem_cons, mem_insertByCountDesc a x l]
      tauto
    · simp only [List.mem_cons]

theorem mem_sortByCountDesc (a : DupSet) :
    ∀ l : List DupSet, (a ∈ sortByCountDesc l ↔ a ∈ l)
  | [] => Iff.rfl
  | x :: xs => by
    show a ∈ insertByCountDesc x (sortByCountDesc xs) ↔ _
    rw [mem_insertByCountDesc, mem_sortByCountDesc a xs, List.mem_cons]

theorem pairwise_insertByCountDesc (x : DupSet) :
    ∀ l : List DupSet, l.Pairwise dupOrder →
      (∀ b ∈ l, x.file_unique_id < b.file_unique_id) →
      (insertByCountDesc x l).Pairwise dupOrder
  | [], _, _ => by simp [insertByCountDesc, List.pairwise_cons]
  | b :: l, hp, hkey => by
    rcases List.pairwise_cons.mp hp with ⟨hb, hl⟩
    unfold insertByCountDesc
    split
    · next hcnt =>
      refine List.pairwise_cons.mpr ⟨?_, ?_⟩
      · intro c hc
        rcases (mem_insertByCountDesc c x l).mp hc with h | h
        · rw [h]; exact Or.inl hcnt
        · exact hb c h
      · exact pairwise_insertByCountDesc x l hl fun c hc =>
          hkey c (List.mem_cons_of_mem b hc)
    · next hcnt =>
      push_neg at hcnt
      refine List.pairwise_cons.mpr ⟨?_, hp⟩
      intro c hc
      rcases List.mem_cons.mp hc with h | h
      · rw [h]
        rcases Nat.lt_or_ge b.total_count x.total_count with ht | ht
        · exact Or.inl ht
        · exact Or.inr ⟨Nat.le_antisymm ht hcnt, hkey b (List.mem_cons_self b l)⟩
      · rcases hb c h with hlt | ⟨heq, _⟩
        · rcases Nat.lt_or_ge c.total_count x.total_count with ht | ht
          · exact Or.inl ht
          · exact absurd (Nat.lt_of_le_of_lt ht (Nat.lt_of_lt_of_le hlt hcnt))
              (Nat.lt_irrefl _)
        · rcases Nat.lt_or_ge c.total_count x.total_count with ht | ht
          · exact Or.inl ht
          · have hxc : x.total_count = c.total_count :=
              Nat.le_antisymm ht (heq ▸ hcnt)
            exact Or.inr ⟨hxc, hkey c (List.mem_cons_of_mem b h)⟩

theorem pairwise_sortByCountDesc :
    ∀ l : List DupSet, l.Pairwise (fun a b => a.file_unique_id < b.file_unique_id) →
      (sortByCountDesc l).Pairwise dupOrder
  | [], _ => List.Pairwise.nil
  | x :: xs, hp => by
    rcases List.pairwise_cons.mp hp with ⟨hx, hxs⟩
    show (insertByCountDesc x (sortByCountDesc xs)).Pairwise dupOrder
    refine pairwise_insertByCountDesc x _ (pairwise_sortByCountDesc xs hxs) ?_
    intro b hb
    exact hx b ((mem_sortByCountDesc b xs).mp hb)

theorem pairwise_key_dupRowsPre (v : List VideoRow) :
    (dupRowsPre v).Pairwise fun a b => a.file_unique_id < b.file_unique_id := by
  unfold dupRowsPre
  rw [List.pairwise_filterMap]
  refine (pairwise_groupKeys v).imp ?_
  intro a b hab x hx y hy
  have hxa : x.file_unique_id = a := by
    by_cases h : 1 < countFor v a
    · rw [if_pos h, Option.mem_some_iff] at hx
      rw [← hx]
    · rw [if_neg h] at hx
      cases hx
  have hyb : y.file_unique_id = b := by
    by_cases h : 1 < countFor v b
    · rw [if_pos h, Option.mem_some_iff] at hy
      rw [← hy]
    · rw [if_neg h] at hy
      cases hy
  rw [hxa, hyb]
  exact hab

theorem mem_dupRowsPre (d : DupSet) (v : List VideoRow) :
    d ∈ dupRowsPre v ↔
      d.file_unique_id ∈ groupKeys v ∧ 1 < countFor v d.file_unique_id ∧
        d = { file_unique_id := d.file_unique_id, file_id := reprFid v d.file_unique_id
              total_count := countFor v d.file_unique_id } := by
  unfold dupRowsPre
  rw [List.mem_filterMap]
  constructor
  · rintro ⟨k, hk, hd⟩
    by_cases h : 1 < countFor v k
    · rw [if_pos h, Option.some_inj] at hd
      have hdk : d.file_unique_id = k := by rw [← hd]
      subst hdk
      exact ⟨hk, h, by rw [← hd]⟩
    · rw [if_neg h] at hd
      cases hd
  · rintro ⟨hk, h, hd⟩
    exact ⟨d.file_unique_id, hk, by rw [if_pos h, ← hd]⟩

theorem countFor_pos_iff (v : List VideoRow) (k : Nat) :
    0 < countFor v k ↔ ∃ r ∈ v, r.file_unique_id = k := by
  unfold countFor
  rw [List.length_pos_iff_exists_mem]
  constructor
  · rintro ⟨r, hr⟩
    rcases List.mem_filter.mp hr with ⟨hrv, hrk⟩
    exact ⟨r, hrv, by simpa using hrk⟩
  · rintro ⟨r, hrv, hrk⟩
    exact ⟨r, List.mem_filter.mpr ⟨hrv, by simpa using hrk⟩⟩

/-- **C8.** The /report duplicate query returns exactly the content keys
with more than one stored occurrence; each returned `total_count` is the
true occurrence count of its key; and the rows are ordered by `total_count`
descending with ties broken by ascending `file_unique_id`, so the result
order is a deterministic function of the stored state. -/
theorem report_duplicate_query_correct (v : List VideoRow) :
    (listDuplicateSets v).Pairwise dupOrder ∧
    (∀ d ∈ listDuplicateSets v,
      d.total_count = countFor v d.file_unique_id ∧ 1 < d.total_count) ∧
    ∀ k : Nat, (∃ d ∈ listDuplicateSets v, d.file_unique_id = k) ↔ 1 < countFor v k := by
  refine ⟨pairwise_sortByCountDesc _ (pairwise_key_dupRowsPre v), ?_, ?_⟩
  · intro d hd
    rw [listDuplicateSets, mem_sortByCountDesc, mem_dupRowsPre] at hd
    rcases hd with ⟨_, hcnt, hd⟩
    constructor
    · rw [hd]
    · rw [hd]
      exact hcnt
  · intro k
    constructor
    · rintro ⟨d, hd, hk⟩
      rw [listDuplicateSets, mem_sortByCountDesc, mem_dupRowsPre] at hd
      rw [← hk]
      exact hd.2.1
    · intro hk
      refine ⟨{ file_unique_id := k, file_id := reprFid v k, total_count := countFor v k },
        ?_, rfl⟩
      rw [listDuplicateSets, mem_sortByCountDesc, mem_dupRowsPre]
      refine ⟨?_, by simpa using hk, rfl⟩
      rw [mem_groupKeys]
      exact (countFor_pos_iff v k).mp (Nat.lt_of_lt_of_le Nat.zero_lt_one (Nat.le_of_lt hk))

/-! ### The store and the /delete_duplicates cleanup -/

/-- Artifact kinds written to `report_messages.report_type`. -/
inductive RKind
  | header
  | video
  | error
deriving DecidableEq, Repr

/-- One row of the `report_messages` table (the AUTOINCREMENT id is not
relevant to any verified property and is omitted). -/
structure ReportRow where
  chat_id : Int
  message_id : Nat
  report_type : RKind
  created_at : Nat
deriving DecidableEq, Repr

/-- The persistent store: both SQLite tables, rows in rowid order. -/
structure Store where
  videos : List VideoRow
  report_messages : List ReportRow
deriving DecidableEq, Repr

/-- The `ORDER BY file_unique_id, message_id` comparison. -/
def rowLe (a b : VideoRow) : Prop :=
  a.file_unique_id < b.file_unique_id ∨
    (a.file_unique_id = b.file_unique_id ∧ a.message_id ≤ b.message_id)

instance (a b : VideoRow) : Decidable (rowLe a b) := by
  unfold rowLe
  infer_instance

/-- Strict version of `rowLe`. -/
def rowLt (a b : VideoRow) : Prop :=
  a.file_unique_id < b.file_unique_id ∨
    (a.file_unique_id = b.file_unique_id ∧ a.message_id < b.message_id)

theorem rowLe_total (a b : VideoRow) : rowLe a b ∨ rowLe b a := by
  unfold rowLe
  rcases Nat.lt_trichotomy a.file_unique_id b.file_unique_id with h | h | h
  · exact Or.inl (Or.inl h)
  · rcases Nat.le_total a.message_id b.message_id with hm | hm
    · exact Or.inl (Or.inr ⟨h, hm⟩)
    · exact Or.inr (Or.inr ⟨h.symm, hm⟩)
  · exact Or.inr (Or.inl h)

theorem rowLe_trans {a b c : VideoRow} (h1 : rowLe a b) (h2 : rowLe b c) : rowLe a c := by
  unfold rowLe at *
  rcases h1 with h1 | ⟨h1, h1m⟩ <;> rcases h2 with h2 | ⟨h2, h2m⟩
  · exact Or.inl (h1.trans h2)
  · exact Or.inl (h2 ▸ h1)
  · exact Or.inl (h1 ▸ h2)
  · exact Or.inr ⟨h1.trans h2, h1m.trans h2m⟩

/-- Stable insertion into a list sorted ascending by `rowLe`. -/
def insertRowLex (x : VideoRow) : List VideoRow → List VideoRow
  | [] => [x]
  | b :: l => if rowLe b x then b :: insertRowLex x l else x :: b :: l

/-- Sort by `(file_unique_id, message_id)` ascending. -/
def sortRowsLex : List VideoRow → List VideoRow
  | [] => []
  | x :: xs => insertRowLex x (sortRowsLex xs)

theorem perm_insertRowLex (x : VideoRow) :
    ∀ l : List VideoRow, (insertRowLex x l).Perm (x :: l)
  | [] => List.Perm.refl _
  | b :: l => by
    unfold insertRowLex
    split
    · exact ((perm_insertRowLex x l).cons b).trans (List.Perm.swap x b l)
    · exact List.Perm.refl _

theorem perm_sortRowsLex : ∀ l : List VideoRow, (sortRowsLex l).Perm l
  | [] => List.Perm.refl _
  | x :: xs => (perm_insertRowLex x (sortRowsLex xs)).trans ((perm_sortRowsLex xs).cons x)

theorem pairwise_insertRowLex (x : VideoRow) :
    ∀ l : List VideoRow, l.Pairwise rowLe → (insertRowLex x l).Pairwise rowLe
  | [], _ => by simp [insertRowLex]
  | b :: l, hp => by
    rcases List.pairwise_cons.mp hp with ⟨hb, hl⟩
    unfold insertRowLex
    split
    · next hbx =>
      refine List.pairwise_cons.mpr ⟨?_, pairwise_insertRowLex x l hl⟩
      intro c hc
      rcases List.mem_cons.mp ((perm_insertRowLex x l).mem_iff.mp hc) with h | h
      · rw [h]; exact hbx
      · exact hb c h
    · next hbx =>
      have hxb : rowLe x b := (rowLe_total x b).resolve_right hbx
      refine List.pairwise_cons.mpr ⟨?_, hp⟩
      intro c hc
      rcases List.mem_cons.mp hc with h | h
      · rw [h]; exact hxb
      · exact rowLe_trans hxb (hb c h)

theorem pairwise_sortRowsLex : ∀ l : List VideoRow, (sortRowsLex l).Pairwise rowLe
  | [] => List.Pairwise.nil
  | x :: xs => pairwise_insertRowLex x (sortRowsLex xs) (pairwise_sortRowsLex xs)

/-- The /delete_duplicates candidate query:
`SELECT file_unique_id, message_id, chat_id FROM videos WHERE file_unique_id
IN (SELECT file_unique_id FROM videos GROUP BY file_unique_id HAVING
COUNT(*) > 1) ORDER BY file_unique_id, message_id` (we keep the full rows). -/
def listDeletableDuplicates (v : List VideoRow) : List VideoRow :=
  sortRowsLex (v.filter fun r => decide (1 < countFor v r.file_unique_id))

/-- The primary key of a `videos` row. -/
def pk (r : VideoRow) : Nat × Nat := (r.file_unique_id, r.message_id)

/-- Table well-formedness: no two stored rows share a primary key.  SQLite
enforces it via `PRIMARY KEY(file_unique_id, message_id)`, and
`INSERT OR IGNORE` preserves it. -/
def pkNodup (v : List VideoRow) : Prop := (v.map pk).Nodup

instance (v : List VideoRow) : Decidable (pkNodup v) := by
  unfold pkNodup
  infer_instance

theorem mem_listDeletableDuplicates {v : List VideoRow} {t : VideoRow}
    (h : t ∈ listDeletableDuplicates v) :
    t ∈ v ∧ 1 < countFor v t.file_unique_id := by
  unfold listDeletableDuplicates at h
  have := (perm_sortRowsLex _).mem_iff.mp h
  rcases List.mem_filter.mp this with ⟨hv, hc⟩
  exact ⟨hv, of_decide_eq_true hc⟩

theorem pairwise_rowLt_listDeletable (v : List VideoRow) (hnd : pkNodup v) :
    (listDeletableDuplicates v).Pairwise rowLt := by
  have hle := pairwise_sortRowsLex (v.filter fun r => decide (1 < countFor v r.file_unique_id))
  have hfil : pkNodup (v.filter fun r => decide (1 < countFor v r.file_unique_id)) :=
    ((List.filter_sublist v).map pk).nodup hnd
  have hsorted : pkNodup (listDeletableDuplicates v) := by
    unfold pkNodup
    exact ((perm_sortRowsLex _).map pk).nodup_iff.mpr hfil
  have hpkne : (listDeletableDuplicates v).Pairwise fun a b => pk a ≠ pk b :=
    List.pairwise_map.mp hsorted
  refine (hle.and hpkne).imp ?_
  rintro a b ⟨hab, hne⟩
  rcases hab with h | ⟨h, hm⟩
  · exact Or.inl h
  · refine Or.inr ⟨h, Nat.lt_of_le_of_ne hm ?_⟩
    intro hmm
    exact hne (by unfold pk; rw [h, hmm])

/-- The skip-first-per-group loop of /delete_duplicates: `last` models the
`last_unique` variable.  A row whose key differs from `last` is skipped
(it is the kept occurrence) and `last` is rebound; a row whose key equals
`last` becomes a deletion candidate. -/
def skipFirstAux : Option Nat → List VideoRow → List VideoRow
  | _, [] => []
  | last, r :: rs =>
    if some r.file_unique_id = last then r :: skipFirstAux last rs
    else skipFirstAux (some r.file_unique_id) rs

/-- The rows the /delete_duplicates loop attempts to delete. -/
def deleteTargets (v : List VideoRow) : List VideoRow :=
  skipFirstAux none (listDeletableDuplicates v)

theorem skipFirstAux_subset :
    ∀ (l : List VideoRow) (last : Option Nat), ∀ t ∈ skipFirstAux last l, t ∈ l := by
  intro l
  induction l with
  | nil => intro last t ht; cases ht
  | cons r rs ih =>
    intro last t ht
    unfold skipFirstAux at ht
    split at ht
    · rcases List.mem_cons.mp ht with h | h
      · rw [h]; exact List.mem_cons_self r rs
      · exact List.mem_cons_of_mem r (ih last t h)
    · exact List.mem_cons_of_mem r (ih _ t ht)

theorem skipFirstAux_prev :
    ∀ (l : List VideoRow) (last : Option Nat), l.Pairwise rowLt →
      ∀ t ∈ skipFirstAux last l, some t.file_unique_id = last ∨
        ∃ r ∈ l, r.file_unique_id = t.file_unique_id ∧ r.message_id < t.message_id := by
  intro l
  induction l with
  | nil => intro last _ t ht; cases ht
  | cons r rs ih =>
    intro last hp t ht
    rcases List.pairwise_cons.mp hp with ⟨hr, hrs⟩
    unfold skipFirstAux at ht
    split at ht
    · next heq =>
      rcases List.mem_cons.mp ht with h | h
      · rw [h]; exact Or.inl heq
      · rcases ih last hrs t h with h' | ⟨r', hr', h1, h2⟩
        · exact Or.inl h'
        · exact Or.inr ⟨r', List.mem_cons_of_mem r hr', h1, h2⟩
    · rcases ih (some r.file_unique_id) hrs t ht with h' | ⟨r', hr', h1, h2⟩
      · have hkey : r.file_unique_id = t.file_unique_id := by
          injection h'.symm
        have htrs : t ∈ rs := skipFirstAux_subset rs _ t ht
        rcases hr t htrs with hlt | ⟨_, hm⟩
        · exact absurd (hkey ▸ hlt) (Nat.lt_irrefl _)
        · exact Or.inr ⟨r, List.mem_cons_self r rs, hkey, hm⟩
      · exact Or.inr ⟨r', List.mem_cons_of_mem r hr', h1, h2⟩

theorem deleteTargets_subset (v : List VideoRow) : ∀ t ∈ deleteTargets v, t ∈ v :=
  fun t ht => (mem_listDeletableDuplicates (skipFirstAux_subset _ none t ht)).1

/-- Every deletion candidate has a stored row with the same content key and
a strictly smaller `message_id` — the kept occurrence (or another earlier
duplicate) stays out of the candidate list. -/
theorem target_has_earlier (v : List VideoRow) (hnd : pkNodup v) :
    ∀ t ∈ deleteTargets v, ∃ r ∈ v, r.file_unique_id = t.file_unique_id ∧
      r.message_id < t.message_id := by
  intro t ht
  rcases skipFirstAux_prev _ none (pairwise_rowLt_listDeletable v hnd) t ht with h | ⟨r, hr, h1, h2⟩
  · cases h
  · exact ⟨r, (mem_listDeletableDuplicates hr).1, h1, h2⟩

/-- Result of one /delete_duplicates run (post-gates): the updated store
and the two success counters reported to the user. -/
structure CleanupRun where
  store : Store
  reports_deleted : Nat
  duplicates_deleted : Nat
deriving DecidableEq, Repr

/-- The store effect and counters of a /delete_duplicates run that has
passed the cooldown and admin gates.  `delOk c m` says whether the
messaging-surface `delete_message(chat_id := c, message_id := m)` call
succeeds; each attempt is independent and a failure only skips that item.
Steps, as in the source: fetch and try to delete the chat's report
messages; unconditionally clear the chat's `report_messages` rows; walk the
ordered duplicate rows skipping the first of each group, attempting a
surface delete for the rest (addressed at the row's own stored chat); and
finally delete from `videos` exactly the successfully deleted pairs. -/
def cleanup (s : Store) (chat : Int) (delOk : Int → Nat → Bool) : CleanupRun :=
  let reportRows := s.report_messages.filter fun a => a.chat_id == chat
  let reportsDeleted := (reportRows.filter fun a => delOk chat a.message_id).length
  let reportsLeft := s.report_messages.filter fun a => !(a.chat_id == chat)
  let deleted := (deleteTargets s.videos).filter fun r => delOk r.chat_id r.message_id
  let videosLeft := s.videos.filter fun r =>
    !(deleted.any fun d => d.file_unique_id == r.file_unique_id &&
        d.message_id == r.message_id)
  { store := { videos := videosLeft, report_messages := reportsLeft }
    reports_deleted := reportsDeleted
    duplicates_deleted := deleted.length }

theorem cleanup_videos_eq (s : Store) (chat : Int) (delOk : Int → Nat → Bool) :
    (cleanup s chat delOk).store.videos =
      s.videos.filter fun r =>
        !(((deleteTargets s.videos).filter fun t => delOk t.chat_id t.message_id).any
            fun d => d.file_unique_id == r.file_unique_id &&
              d.message_id == r.message_id) := rfl

theorem cleanup_reports_eq (s : Store) (chat : Int) (delOk : Int → Nat → Bool) :
    (cleanup s chat delOk).store.report_messages =
      s.report_messages.filter fun a => !(a.chat_id == chat) := rfl

/-- No deletion candidate carries the primary key of a row that is minimal
(by `message_id`) within its content-key group. -/
theorem min_row_safe (v : List VideoRow) (hnd : pkNodup v) (k : VideoRow)
    (hmin : ∀ r ∈ v, r.file_unique_id = k.file_unique_id → k.message_id ≤ r.message_id) :
    ∀ t ∈ deleteTargets v,
      ¬(t.file_unique_id = k.file_unique_id ∧ t.message_id = k.message_id) := by
  intro t ht hcol
  rcases target_has_earlier v hnd t ht with ⟨r, hrv, hr1, hr2⟩
  have h1 := hmin r hrv (hr1.trans hcol.1)
  have h2 := hcol.2
  omega

theorem min_row_survives (s : Store) (chat : Int) (delOk : Int → Nat → Bool)
    (hnd : pkNodup s.videos) (k : VideoRow) (hk : k ∈ s.videos)
    (hmin : ∀ r ∈ s.videos, r.file_unique_id = k.file_unique_id →
      k.message_id ≤ r.message_id) :
    k ∈ (cleanup s chat delOk).store.videos := by
  rw [cleanup_videos_eq, List.mem_filter]
  refine ⟨hk, ?_⟩
  rw [Bool.not_eq_true']
  rw [List.any_eq_false]
  intro d hd
  rcases List.mem_filter.mp hd with ⟨hdt, _⟩
  intro hmatch
  rw [Bool.and_eq_true] at hmatch
  rcases hmatch with ⟨hm1, hm2⟩
  exact min_row_safe s.videos hnd k hmin d hdt ⟨beq_iff_eq.mp hm1, beq_iff_eq.mp hm2⟩

theorem exists_min_row (u : Nat) :
    ∀ v : List VideoRow, (∃ r ∈ v, r.file_unique_id = u) →
      ∃ k, k ∈ v ∧ k.file_unique_id = u ∧
        ∀ r ∈ v, r.file_unique_id = u → k.message_id ≤ r.message_id := by
  intro v
  induction v with
  | nil => rintro ⟨r, hr, _⟩; cases hr
  | cons r rs ih =>
    intro hex
    by_cases hru : r.file_unique_id = u
    · by_cases hrs : ∃ r' ∈ rs, r'.file_unique_id = u
      · rcases ih hrs with ⟨k, hk, hku, hkmin⟩
        by_cases hm : k.message_id ≤ r.message_id
        · refine ⟨k, List.mem_cons_of_mem r hk, hku, ?_⟩
          intro r' hr' hr'u
          rcases List.mem_cons.mp hr' with h | h
          · rw [h]; exact hm
          · exact hkmin r' h hr'u
        · refine ⟨r, List.mem_cons_self r rs, hru, ?_⟩
          intro r' hr' hr'u
          rcases List.mem_cons.mp hr' with h | h
          · rw [h]
          · exact Nat.le_trans (Nat.le_of_not_le hm) (hkmin r' h hr'u)
      · refine ⟨r, List.mem_cons_self r rs, hru, ?_⟩
        intro r' hr' hr'u
        rcases List.mem_cons.mp hr' with h | h
        · rw [h]
        · exact absurd ⟨r', h, hr'u⟩ hrs
    · rcases hex with ⟨x, hx, hxu⟩
      rcases List.mem_cons.mp hx with h | h
      · exact absurd (h ▸ hxu) hru
      · rcases ih ⟨x, h, hxu⟩ with ⟨k, hk, hku, hkmin⟩
        refine ⟨k, List.mem_cons_of_mem r hk, hku, ?_⟩
        intro r' hr' hr'u
        rcases List.mem_cons.mp hr' with h' | h'
        · exact absurd (h' ▸ hr'u) hru
        · exact hkmin r' h' hr'u

/-- **C1.** In every /delete_duplicates run, the kept occurrence of each
content key — the stored row with the smallest `message_id` in its
`file_unique_id` group — is never a deletion candidate and still sits in
the store afterwards; consequently every content key that had at least one
stored occurrence keeps at least one, even when every messaging-surface
delete succeeds (`delOk` is universally quantified, so in particular the
all-true oracle). -/
theorem cleanup_keeps_first_occurrence (s : Store) (chat : Int)
    (delOk : Int → Nat → Bool) (uid : Nat) (k : VideoRow) (u : Nat)
    (hnd : pkNodup s.videos) (hk : k ∈ s.videos) (hku : k.file_unique_id = uid)
    (hmin : ∀ r ∈ s.videos, r.file_unique_id = uid → k.message_id ≤ r.message_id)
    (hu : ∃ r ∈ s.videos, r.file_unique_id = u) :
    k ∉ deleteTargets s.videos ∧
    k ∈ (cleanup s chat delOk).store.videos ∧
    ∃ r ∈ (cleanup s chat delOk).store.videos, r.file_unique_id = u := by
  have hmin' : ∀ r ∈ s.videos, r.file_unique_id = k.file_unique_id →
      k.message_id ≤ r.message_id := fun r hr h => hmin r hr (h.trans hku)
  refine ⟨?_, min_row_survives s chat delOk hnd k hk hmin', ?_⟩
  · intro hkt
    exact min_row_safe s.videos hnd k hmin' k hkt ⟨rfl, rfl⟩
  · rcases exists_min_row u s.videos hu with ⟨m, hm, hmu, hmmin⟩
    have hmmin' : ∀ r ∈ s.videos, r.file_unique_id = m.file_unique_id →
        m.message_id ≤ r.message_id := fun r hr h => hmmin r hr (h.trans hmu)
    exact ⟨m, min_row_survives s chat delOk hnd m hm hmmin', hmu⟩

/-- **C4.** After a /delete_duplicates run for `chat`, no `report_messages`
row for that chat remains, whatever the individual surface-delete outcomes;
and a stored occurrence row is gone from `videos` exactly when it was a
deletion candidate whose surface delete succeeded — candidates whose delete
failed, and non-candidates, remain stored. -/
theorem cleanup_reconciles_store (s : Store) (chat : Int)
    (delOk : Int → Nat → Bool) (hnd : pkNodup s.videos) :
    (∀ a ∈ (cleanup s chat delOk).store.report_messages, a.chat_id ≠ chat) ∧
    ∀ r ∈ s.videos,
      r ∈ (cleanup s chat delOk).store.videos ↔
        ¬(r ∈ deleteTargets s.videos ∧ delOk r.chat_id r.message_id = true) := by
  constructor
  · intro a ha
    rw [cleanup_reports_eq, List.mem_filter, Bool.not_eq_true', beq_eq_false_iff_ne] at ha
    exact ha.2
  · intro r hr
    rw [cleanup_videos_eq, List.mem_filter]
    constructor
    · rintro ⟨_, hany⟩ ⟨htar, hok⟩
      rw [Bool.not_eq_true', List.any_eq_false] at hany
      refine hany r (List.mem_filter.mpr ⟨htar, hok⟩) ?_
      simp [pkMatches]
    · intro hno
      refine ⟨hr, ?_⟩
      rw [Bool.not_eq_true', List.any_eq_false]
      intro d hd hmatch
      rcases List.mem_filter.mp hd with ⟨hdt, hdok⟩
      rw [Bool.and_eq_true] at hmatch
      rcases hmatch with ⟨hm1, hm2⟩
      have hdr : d = r := by
        refine List.inj_on_of_nodup_map hnd (deleteTargets_subset s.videos d hdt) hr ?_
        unfold pk
        rw [beq_iff_eq.mp hm1, beq_iff_eq.mp hm2]
      exact hno ⟨hdr ▸ hdt, hdr ▸ hdok⟩

/-- Demo state: the same video posted twice in chat 1 (messages 10 and 20),
with one recorded report-header message. -/
def demoRowA : VideoRow :=
  { file_unique_id := 1, file_id := 100, count := 2, first_seen := 0
    chat_id := 1, message_id := 10 }

/-- Second posting of the demo video (the duplicate to be deleted). -/
def demoRowB : VideoRow :=
  { file_unique_id := 1, file_id := 101, count := 2, first_seen := 3
    chat_id := 1, message_id := 20 }

/-- Demo store holding the two demo occurrences and one report artifact. -/
def demoStore : Store :=
  { videos := [demoRowA, demoRowB]
    report_messages :=
      [{ chat_id := 1, message_id := 501, report_type := RKind.header, created_at := 4 }] }

/-- Witness for C1 at the demo store with every surface delete succeeding:
message 10 (the kept occurrence of key 1) is not targeted and remains. -/
theorem cleanup_keeps_first_occurrence_witness :
    demoRowA ∉ deleteTargets demoStore.videos ∧
    demoRowA ∈ (cleanup demoStore 1 fun _ _ => true).store.videos ∧
    ∃ r ∈ (cleanup demoStore 1 fun _ _ => true).store.videos, r.file_unique_id = 1 :=
  cleanup_keeps_first_occurrence demoStore 1 (fun _ _ => true) 1 demoRowA 1
    (by decide) (by decide) (by decide) (by decide) (by decide)

/-- Witness for C4 at the demo store with every surface delete succeeding. -/
theorem cleanup_reconciles_store_witness :
    (∀ a ∈ (cleanup demoStore 1 fun _ _ => true).store.report_messages, a.chat_id ≠ 1) ∧
    ∀ r ∈ demoStore.videos,
      r ∈ (cleanup demoStore 1 fun _ _ => true).store.videos ↔
        ¬(r ∈ deleteTargets demoStore.videos ∧
          (fun _ _ => true : Int → Nat → Bool) r.chat_id r.message_id = true) :=
  cleanup_reconciles_store demoStore 1 (fun _ _ => true) (by decide)

/-! ### The cooldown gate and the gated /delete_duplicates command -/

/-- `REPORT_COOLDOWN = 30` seconds between /report commands per chat. -/
def REPORT_COOLDOWN : ℚ := 30

/-- `DELETE_COOLDOWN = 60` seconds between /delete_duplicates per chat. -/
def DELETE_COOLDOWN : ℚ := 60

/-- Python `int()` applied to a rational: truncation toward zero. -/
def pyInt (q : ℚ) : Int := q.num.tdiv (q.den : Int)

/-- Outcome of the rate-limiting check at the top of a command handler. -/
inductive GateResult
  | allowed
  | denied (remaining : Int)
deriving DecidableEq, Repr

/-- The check-and-arm cooldown step shared by /report and
/delete_duplicates: if the chat has a recorded last-invocation timestamp
less than `window` seconds before `now`, reply with
`int(window - (now - last))` remaining and leave the map alone; otherwise
record `now` for the chat and proceed. -/
def checkAndArm (m : Int → Option ℚ) (chat : Int) (now window : ℚ) :
    GateResult × (Int → Option ℚ) :=
  match m chat with
  | none => (GateResult.allowed, fun c => if c = chat then some now else m c)
  | some last =>
    if now - last < window then
      (GateResult.denied (pyInt (window - (now - last))), m)
    else
      (GateResult.allowed, fun c => if c = chat then some now else m c)

theorem pyInt_eq_floor (q : ℚ) (h : 0 ≤ q) : pyInt q = ⌊q⌋ := by
  rw [Rat.floor_def]
  exact Int.tdiv_eq_ediv (Rat.num_nonneg.mpr h) (by positivity)

theorem checkAndArm_denied {m : Int → Option ℚ} {chat : Int} {now window last : ℚ}
    (hm : m chat = some last) (h : now - last < window) :
    checkAndArm m chat now window =
      (GateResult.denied (pyInt (window - (now - last))), m) := by
  unfold checkAndArm
  rw [hm]
  show (if now - last < window then
      (GateResult.denied (pyInt (window - (now - last))), m)
    else (GateResult.allowed, fun c => if c = chat then some now else m c)) =
    (GateResult.denied (pyInt (window - (now - last))), m)
  rw [if_pos h]

theorem checkAndArm_allowed_of_none {m : Int → Option ℚ} {chat : Int}
    {now window : ℚ} (hm : m chat = none) :
    checkAndArm m chat now window =
      (GateResult.allowed, fun c => if c = chat then some now else m c) := by
  unfold checkAndArm
  rw [hm]

theorem checkAndArm_allowed_of_elapsed {m : Int → Option ℚ} {chat : Int}
    {now window last : ℚ} (hm : m chat = some last) (h : window ≤ now - last) :
    checkAndArm m chat now window =
      (GateResult.allowed, fun c => if c = chat then some now else m c) := by
  unfold checkAndArm
  rw [hm]
  show (if now - last < window then
      (GateResult.denied (pyInt (window - (now - last))), m)
    else (GateResult.allowed, fun c => if c = chat then some now else m c)) = _
  rw [if_neg (not_lt.mpr h)]

theorem checkAndArm_arm_of_allowed (m : Int → Option ℚ) (chat : Int) (now window : ℚ)
    (h : (checkAndArm m chat now window).1 = GateResult.allowed) :
    (checkAndArm m chat now window).2 chat = some now := by
  cases hmc : m chat with
  | none =>
    rw [checkAndArm_allowed_of_none hmc]
    simp
  | some last =>
    by_cases hlt : now - last < window
    · rw [checkAndArm_denied hmc hlt] at h
      exact GateResult.noConfusion h
    · rw [checkAndArm_allowed_of_elapsed hmc (not_lt.mp hlt)]
      simp

/-- **C6 counterexample.**  With the /report window (30 s), a second
invocation half a second after an armed one is denied with 29 whole
seconds remaining — `int()` truncates — whereas the ceiling of
`30 − 1/2` claimed by the specification is 30. -/
theorem cooldown_ceiling_counterexample :
    (checkAndArm (fun c => if c = 5 then some 0 else none) 5 (1/2) REPORT_COOLDOWN).1 =
      GateResult.denied 29 ∧
    ⌈(REPORT_COOLDOWN - 1/2 : ℚ)⌉ = 30 ∧ (29 : Int) ≠ 30 := by
  have hrc : (REPORT_COOLDOWN - ((1 : ℚ)/2 - 0)) = 59/2 := by
    norm_num [REPORT_COOLDOWN]
  refine ⟨?_, ?_, by decide⟩
  · rw [@checkAndArm_denied (fun c => if c = 5 then some 0 else none) 5 (1/2)
      REPORT_COOLDOWN 0 rfl (by norm_num [REPORT_COOLDOWN])]
    show GateResult.denied (pyInt (REPORT_COOLDOWN - ((1 : ℚ)/2 - 0))) = GateResult.denied 29
    rw [hrc, pyInt_eq_floor _ (by norm_num)]
    have hfl : ⌊(59 : ℚ)/2⌋ = 29 := by
      rw [Int.floor_eq_iff] <;> norm_num
    rw [hfl]
  · rw [show (REPORT_COOLDOWN - 1/2 : ℚ) = 59/2 by norm_num [REPORT_COOLDOWN]]
    rw [Int.ceil_eq_iff] <;> norm_num

/-- **C6 (amended).**  For either mutating command family's window (30 s
for /report, 60 s for /delete_duplicates): an invocation at `t0 + ε`,
`0 < ε < W`, after an armed invocation at `t0` is denied with remaining
wait `W − ε` rounded DOWN to whole seconds (`int()` truncation, i.e. the
floor — not the ceiling — of the positive remainder) and does not re-arm
the timestamp; an invocation at or after `t0 + W` is allowed and records
its own invocation time. -/
theorem cooldown_gate_behavior (m : Int → Option ℚ) (chat : Int) (t0 ε W : ℚ)
    (hW : W = REPORT_COOLDOWN ∨ W = DELETE_COOLDOWN)
    (harm : m chat = some t0) (hε : 0 < ε) (hεW : ε < W) :
    (checkAndArm m chat (t0 + ε) W).1 = GateResult.denied ⌊W - ε⌋ ∧
    (checkAndArm m chat (t0 + ε) W).2 = m ∧
    ∀ now : ℚ, t0 + W ≤ now →
      (checkAndArm m chat now W).1 = GateResult.allowed ∧
      (checkAndArm m chat now W).2 chat = some now := by
  have hd := @checkAndArm_denied m chat (t0 + ε) W t0 harm
    (by rw [add_sub_cancel_left]; exact hεW)
  refine ⟨?_, ?_, ?_⟩
  · rw [hd]
    show GateResult.denied (pyInt (W - (t0 + ε - t0))) = _
    rw [add_sub_cancel_left, pyInt_eq_floor _ (by linarith)]
  · rw [hd]
  · intro now hnow
    rw [@checkAndArm_allowed_of_elapsed m chat now W t0 harm (by linarith)]
    exact ⟨rfl, by simp⟩

/-- Witness for the amended cooldown theorem at the /report window:
chat 5 armed at time 0, retried at 1 s. -/
theorem cooldown_gate_behavior_witness :
    (checkAndArm (fun c => if c = 5 then some (0:ℚ) else none) 5 (0 + 1) REPORT_COOLDOWN).1 =
      GateResult.denied ⌊REPORT_COOLDOWN - 1⌋ ∧
    (checkAndArm (fun c => if c = 5 then some (0:ℚ) else none) 5 (0 + 1) REPORT_COOLDOWN).2 =
      (fun c => if c = 5 then some (0:ℚ) else none) ∧
    ∀ now : ℚ, 0 + REPORT_COOLDOWN ≤ now →
      (checkAndArm (fun c => if c = 5 then some (0:ℚ) else none) 5 now REPORT_COOLDOWN).1 =
        GateResult.allowed ∧
      (checkAndArm (fun c => if c = 5 then some (0:ℚ) else none) 5 now REPORT_COOLDOWN).2 5 =
        some now :=
  cooldown_gate_behavior (fun c => if c = 5 then some (0:ℚ) else none) 5 0 1
    REPORT_COOLDOWN (Or.inl rfl) rfl (by decide) (by decide)

/-- Admin-status lookup outcome of `chat.get_member(user.id)`. -/
inductive AdminCheck
  | admin
  | notAdmin
  | lookupFail
deriving DecidableEq, Repr

/-- User-visible outcome of a /delete_duplicates invocation. -/
inductive DeleteOutcome
  | cooldownDenied (remaining : Int)
  | notAuthorized
  | cantVerify
  | done (run : CleanupRun)
deriving DecidableEq, Repr

/-- The /delete_duplicates handler: the cooldown check (which arms the
per-chat timestamp optimistically) runs FIRST, then the admin-status check,
then the cleanup body.  `adm` is the outcome of the external membership
lookup. -/
def delete_duplicates (s : Store) (m : Int → Option ℚ) (chat : Int) (now : ℚ)
    (adm : AdminCheck) (delOk : Int → Nat → Bool) :
    DeleteOutcome × (Int → Option ℚ) :=
  let g := checkAndArm m chat now DELETE_COOLDOWN
  match g.1 with
  | GateResult.denied remaining => (DeleteOutcome.cooldownDenied remaining, g.2)
  | GateResult.allowed =>
    match adm with
    | AdminCheck.notAdmin => (DeleteOutcome.notAuthorized, g.2)
    | AdminCheck.lookupFail => (DeleteOutcome.cantVerify, g.2)
    | AdminCheck.admin => (DeleteOutcome.done (cleanup s chat delOk), g.2)

theorem delete_duplicates_of_denied {s : Store} {m : Int → Option ℚ} {chat : Int}
    {now : ℚ} {adm : AdminCheck} {delOk : Int → Nat → Bool} {r : Int}
    (h : (checkAndArm m chat now DELETE_COOLDOWN).1 = GateResult.denied r) :
    delete_duplicates s m chat now adm delOk =
      (DeleteOutcome.cooldownDenied r, (checkAndArm m chat now DELETE_COOLDOWN).2) := by
  simp only [delete_duplicates]
  rw [h]

theorem delete_duplicates_of_allowed {s : Store} {m : Int → Option ℚ} {chat : Int}
    {now : ℚ} {delOk : Int → Nat → Bool} (adm : AdminCheck)
    (h : (checkAndArm m chat now DELETE_COOLDOWN).1 = GateResult.allowed) :
    delete_duplicates s m chat now adm delOk =
      ((match adm with
        | AdminCheck.notAdmin => DeleteOutcome.notAuthorized
        | AdminCheck.lookupFail => DeleteOutcome.cantVerify
        | AdminCheck.admin => DeleteOutcome.done (cleanup s chat delOk)),
       (checkAndArm m chat now DELETE_COOLDOWN).2) := by
  simp only [delete_duplicates]
  rw [h]
  cases adm <;> rfl

/-- **C10.**  A /delete_duplicates invocation that passes the cooldown
check arms the per-chat delete cooldown BEFORE the admin-status check: an
invocation rejected as not-admin (or with an unverifiable lookup) performs
no cleanup, yet records its invocation time, and a second invocation for
the same chat ε seconds later (0 < ε < 60) is rejected with the wait
notice even though no deletion ever happened. -/
theorem delete_cooldown_armed_before_admin (s s' : Store) (m : Int → Option ℚ)
    (chat : Int) (now ε : ℚ) (adm : AdminCheck) (delOk delOk' : Int → Nat → Bool)
    (hallow : (checkAndArm m chat now DELETE_COOLDOWN).1 = GateResult.allowed)
    (hadm : adm = AdminCheck.notAdmin ∨ adm = AdminCheck.lookupFail)
    (hε : 0 < ε) (hεW : ε < DELETE_COOLDOWN) :
    (∀ run, (delete_duplicates s m chat now adm delOk).1 ≠ DeleteOutcome.done run) ∧
    (delete_duplicates s m chat now adm delOk).2 chat = some now ∧
    (delete_duplicates s' (delete_duplicates s m chat now adm delOk).2 chat (now + ε)
        AdminCheck.admin delOk').1 =
      DeleteOutcome.cooldownDenied ⌊DELETE_COOLDOWN - ε⌋ := by
  have heq := @delete_duplicates_of_allowed s m chat now delOk adm hallow
  have harm2 : (delete_duplicates s m chat now adm delOk).2 chat = some now := by
    rw [heq]
    exact checkAndArm_arm_of_allowed m chat now DELETE_COOLDOWN hallow
  refine ⟨?_, harm2, ?_⟩
  · intro run hdone
    rw [heq] at hdone
    rcases hadm with h | h <;> rw [h] at hdone <;> exact DeleteOutcome.noConfusion hdone
  · have hd := @checkAndArm_denied (delete_duplicates s m chat now adm delOk).2 chat
      (now + ε) DELETE_COOLDOWN now harm2 (by rw [add_sub_cancel_left]; exact hεW)
    rw [delete_duplicates_of_denied (by rw [hd])]
    show DeleteOutcome.cooldownDenied (pyInt (DELETE_COOLDOWN - (now + ε - now))) = _
    rw [add_sub_cancel_left, pyInt_eq_floor _ (by linarith)]

/-- Witness for C10: chat 1 armed-at-time-0 map is empty, a not-admin
invocation at time 0 arms the cooldown, and an admin retry at 10 s is
denied with 50 s remaining. -/
theorem delete_cooldown_armed_before_admin_witness :
    (∀ run, (delete_duplicates demoStore (fun _ => none) 1 0 AdminCheck.notAdmin
        (fun _ _ => true)).1 ≠ DeleteOutcome.done run) ∧
    (delete_duplicates demoStore (fun _ => none) 1 0 AdminCheck.notAdmin
        (fun _ _ => true)).2 1 = some 0 ∧
    (delete_duplicates demoStore
        (delete_duplicates demoStore (fun _ => none) 1 0 AdminCheck.notAdmin
          (fun _ _ => true)).2 1 (0 + 10) AdminCheck.admin (fun _ _ => true)).1 =
      DeleteOutcome.cooldownDenied ⌊DELETE_COOLDOWN - 10⌋ :=
  delete_cooldown_armed_before_admin demoStore demoStore (fun _ => none) 1 0 10
    AdminCheck.notAdmin (fun _ _ => true) (fun _ _ => true) rfl (Or.inl rfl)
    (by decide) (by decide)

/-! ### The /report workflow -/

/-- `MAX_REPORT_VIDEOS = 10`: at most this many duplicate sets are shown. -/
def MAX_REPORT_VIDEOS : Nat := 10

/-- Observable events of one /report run, in order.  `sleep` is the fixed
`RATE_LIMIT_DELAY` pause `asyncio.sleep(0.5)`. -/
inductive REvent
  | header
  | media (rank : Nat)
  | mediaFail (rank : Nat)
  | sleep
  | errNote (rank : Nat)
  | errNoteFail (rank : Nat)
  | noDuplicates
deriving DecidableEq, Repr

/-- Messaging-surface oracle for one /report run: `sendVideo i` returns the
message id of the i-th item's video message when that send succeeds
(`none` = the send raised); `sendErrNote i` likewise for the per-item
"Could not send video i" notice. -/
structure ReportSurface where
  sendVideo : Nat → Option Nat
  sendErrNote : Nat → Option Nat

/-- The per-item loop of /report, starting at rank `i`: for each item, try
to send the video; on success record a `video` artifact, bump
`videos_sent` and sleep; on failure try to send the per-item error notice,
recording an `error` artifact only when that secondary send succeeds.
Returns (event trace, artifact rows for the batch insert, videos_sent). -/
def reportLoop (chat : Int) (sf : ReportSurface) (ts : Nat) :
    Nat → List DupSet → List REvent × List ReportRow × Nat
  | _, [] => ([], [], 0)
  | i, _ :: rest =>
    match sf.sendVideo i with
    | some mid =>
      (REvent.media i :: REvent.sleep :: (reportLoop chat sf ts (i + 1) rest).1,
       { chat_id := chat, message_id := mid, report_type := RKind.video
         created_at := ts } :: (reportLoop chat sf ts (i + 1) rest).2.1,
       (reportLoop chat sf ts (i + 1) rest).2.2 + 1)
    | none =>
      match sf.sendErrNote i with
      | some mid =>
        (REvent.mediaFail i :: REvent.errNote i :: (reportLoop chat sf ts (i + 1) rest).1,
         { chat_id := chat, message_id := mid, report_type := RKind.error
           created_at := ts } :: (reportLoop chat sf ts (i + 1) rest).2.1,
         (reportLoop chat sf ts (i + 1) rest).2.2)
      | none =>
        (REvent.mediaFail i :: REvent.errNoteFail i :: (reportLoop chat sf ts (i + 1) rest).1,
         (reportLoop chat sf ts (i + 1) rest).2.1,
         (reportLoop chat sf ts (i + 1) rest).2.2)

/-- Result of one /report run that has passed the cooldown gate. -/
structure ReportRun where
  events : List REvent
  artifacts : List ReportRow
  videos_sent : Nat
  sets_found : Nat
deriving DecidableEq, Repr

/-- One /report run (post-cooldown).  `headerMid` is the message id of the
header reply and `ts` the wall-clock stamp written on artifacts.  With no
duplicate sets, a single "No repeated videos found yet." notice is sent and
nothing is recorded; otherwise the header is sent and recorded, the top
`MAX_REPORT_VIDEOS` sets are walked with per-item failure isolation, and
all artifacts of the run are stored in one batch at the end. -/
def report_command (v : List VideoRow) (chat : Int) (headerMid ts : Nat)
    (sf : ReportSurface) : ReportRun :=
  let repeated := listDuplicateSets v
  if repeated.isEmpty then
    { events := [REvent.noDuplicates], artifacts := [], videos_sent := 0
      sets_found := 0 }
  else
    { events := REvent.header ::
        (reportLoop chat sf ts 1 (repeated.take MAX_REPORT_VIDEOS)).1
      artifacts :=
        { chat_id := chat, message_id := headerMid, report_type := RKind.header
          created_at := ts } ::
        (reportLoop chat sf ts 1 (repeated.take MAX_REPORT_VIDEOS)).2.1
      videos_sent := (reportLoop chat sf ts 1 (repeated.take MAX_REPORT_VIDEOS)).2.2
      sets_found := repeated.length }

/-- Checks sleep placement in a trace suffix: every successful media send
is immediately followed by exactly one sleep, and no sleep occurs anywhere
else. -/
def delayAfterEachSend : List REvent → Bool
  | [] => true
  | REvent.media _ :: REvent.sleep :: l => delayAfterEachSend l
  | REvent.media _ :: _ => false
  | REvent.sleep :: _ => false
  | _ :: l => delayAfterEachSend l

/-- Surface oracle where every send succeeds. -/
def demoSurface : ReportSurface :=
  { sendVideo := fun i => some (600 + i), sendErrNote := fun i => some (700 + i) }

/-- **C9 counterexample.**  On a store with exactly one duplicate set and a
surface whose sends all succeed, the /report trace is the header, the one
media send, and then a sleep: the fixed delay IS executed after the last
(here: the only) item, contradicting "the delay is never applied after the
last item". -/
theorem report_delay_after_last_item_counterexample :
    (report_command demoStore.videos 1 500 7 demoSurface).events =
      [REvent.header, REvent.media 1, REvent.sleep] ∧
    (report_command demoStore.videos 1 500 7 demoSurface).events.getLast? =
      some REvent.sleep := by
  constructor
  · rfl
  · rfl

theorem delayAfterEachSend_reportLoop (chat : Int) (sf : ReportSurface) (ts : Nat) :
    ∀ (items : List DupSet) (i : Nat),
      delayAfterEachSend (reportLoop chat sf ts i items).1 = true := by
  intro items
  induction items with
  | nil => intro i; rfl
  | cons d rest ih =>
    intro i
    cases hv : sf.sendVideo i with
    | some mid =>
      simp only [reportLoop, hv]
      exact ih (i + 1)
    | none =>
      cases he : sf.sendErrNote i with
      | some mid =>
        simp only [reportLoop, hv, he]
        exact ih (i + 1)
      | none =>
        simp only [reportLoop, hv, he]
        exact ih (i + 1)

/-- **C9 (amended).**  The fixed inter-send delay is never executed before
the header (the trace starts with the header or the no-duplicates notice)
and accompanies exactly the successful media sends: each successful send —
including the LAST item's — is immediately followed by one sleep, and no
sleep occurs anywhere else (none after a failed send, none consecutive). -/
theorem report_delay_placement (v : List VideoRow) (chat : Int) (headerMid ts : Nat)
    (sf : ReportSurface) :
    ((report_command v chat headerMid ts sf).events.head? = some REvent.noDuplicates ∨
      (report_command v chat headerMid ts sf).events.head? = some REvent.header) ∧
    delayAfterEachSend (report_command v chat headerMid ts sf).events.tail = true := by
  by_cases h : (listDuplicateSets v).isEmpty
  · simp only [report_command, if_pos h]
    exact ⟨Or.inl rfl, rfl⟩
  · simp only [report_command, if_neg h]
    exact ⟨Or.inr rfl, delayAfterEachSend_reportLoop chat sf ts _ 1⟩

/-- The ranks `i, i+1, …, i+n−1` visited by the /report loop. -/
def ranks (i : Nat) : Nat → List Nat
  | 0 => []
  | n + 1 => i :: ranks (i + 1) n

theorem reportLoop_cons_some {sf : ReportSurface} {i mid : Nat} (chat : Int) (ts : Nat)
    (d : DupSet) (rest : List DupSet) (hv : sf.sendVideo i = some mid) :
    reportLoop chat sf ts i (d :: rest) =
      (REvent.media i :: REvent.sleep :: (reportLoop chat sf ts (i + 1) rest).1,
       { chat_id := chat, message_id := mid, report_type := RKind.video
         created_at := ts } :: (reportLoop chat sf ts (i + 1) rest).2.1,
       (reportLoop chat sf ts (i + 1) rest).2.2 + 1) := by
  simp [reportLoop, hv]

theorem reportLoop_cons_err {sf : ReportSurface} {i mid : Nat} (chat : Int) (ts : Nat)
    (d : DupSet) (rest : List DupSet) (hv : sf.sendVideo i = none)
    (he : sf.sendErrNote i = some mid) :
    reportLoop chat sf ts i (d :: rest) =
      (REvent.mediaFail i :: REvent.errNote i :: (reportLoop chat sf ts (i + 1) rest).1,
       { chat_id := chat, message_id := mid, report_type := RKind.error
         created_at := ts } :: (reportLoop chat sf ts (i + 1) rest).2.1,
       (reportLoop chat sf ts (i + 1) rest).2.2) := by
  simp [reportLoop, hv, he]

theorem reportLoop_cons_errFail {sf : ReportSurface} {i : Nat} (chat : Int) (ts : Nat)
    (d : DupSet) (rest : List DupSet) (hv : sf.sendVideo i = none)
    (he : sf.sendErrNote i = none) :
    reportLoop chat sf ts i (d :: rest) =
      (REvent.mediaFail i :: REvent.errNoteFail i ::
        (reportLoop chat sf ts (i + 1) rest).1,
       (reportLoop chat sf ts (i + 1) rest).2.1,
       (reportLoop chat sf ts (i + 1) rest).2.2) := by
  simp [reportLoop, hv, he]

theorem reportLoop_counts (chat : Int) (sf : ReportSurface) (ts : Nat) :
    ∀ (items : List DupSet) (i : Nat),
      (reportLoop chat sf ts i items).2.2 =
        ((ranks i items.length).filter fun j => (sf.sendVideo j).isSome).length ∧
      ((reportLoop chat sf ts i items).2.1.filter
          fun a => a.report_type == RKind.video).length =
        ((ranks i items.length).filter fun j => (sf.sendVideo j).isSome).length ∧
      ((reportLoop chat sf ts i items).2.1.filter
          fun a => a.report_type == RKind.error).length =
        ((ranks i items.length).filter
          fun j => (sf.sendVideo j).isNone && (sf.sendErrNote j).isSome).length := by
  intro items
  induction items with
  | nil => intro i; exact ⟨rfl, rfl, rfl⟩
  | cons d rest ih =>
    intro i
    rcases ih (i + 1) with ⟨ih1, ih2, ih3⟩
    cases hv : sf.sendVideo i with
    | some mid =>
      rw [reportLoop_cons_some chat ts d rest hv]
      refine ⟨?_, ?_, ?_⟩ <;>
        simp [ranks, List.filter_cons, hv, ih1, ih2, ih3]
    | none =>
      cases he : sf.sendErrNote i with
      | some mid =>
        rw [reportLoop_cons_err chat ts d rest hv he]
        refine ⟨?_, ?_, ?_⟩ <;>
          simp [ranks, List.filter_cons, hv, he, ih1, ih2, ih3]
      | none =>
        rw [reportLoop_cons_errFail chat ts d rest hv he]
        refine ⟨?_, ?_, ?_⟩ <;>
          simp [ranks, List.filter_cons, hv, he, ih1, ih2, ih3]

theorem reportLoop_mem_attempt (chat : Int) (sf : ReportSurface) (ts : Nat) :
    ∀ (items : List DupSet) (i j : Nat), i ≤ j → j < i + items.length →
      REvent.media j ∈ (reportLoop chat sf ts i items).1 ∨
      REvent.mediaFail j ∈ (reportLoop chat sf ts i items).1 := by
  intro items
  induction items with
  | nil =>
    intro i j h1 h2
    simp only [List.length_nil, Nat.add_zero] at h2
    omega
  | cons d rest ih =>
    intro i j h1 h2
    by_cases hij : j = i
    · subst hij
      cases hv : sf.sendVideo j with
      | some mid =>
        left
        simp [reportLoop, hv]
      | none =>
        cases he : sf.sendErrNote j with
        | some mid =>
          right
          simp [reportLoop, hv, he]
        | none =>
          right
          simp [reportLoop, hv, he]
    · have h2' : j < (i + 1) + rest.length := by
        have : (d :: rest).length = rest.length + 1 := rfl
        omega
      rcases ih (i + 1) j (by omega) h2' with h | h
      · left
        cases hv : sf.sendVideo i with
        | some mid => simp [reportLoop, hv, h]
        | none =>
          cases he : sf.sendErrNote i with
          | some mid => simp [reportLoop, hv, he, h]
          | none => simp [reportLoop, hv, he, h]
      · right
        cases hv : sf.sendVideo i with
        | some mid => simp [reportLoop, hv, h]
        | none =>
          cases he : sf.sendErrNote i with
          | some mid => simp [reportLoop, hv, he, h]
          | none => simp [reportLoop, hv, he, h]

theorem reportLoop_mem_errNote (chat : Int) (sf : ReportSurface) (ts : Nat) :
    ∀ (items : List DupSet) (i j : Nat),
      REvent.errNote j ∈ (reportLoop chat sf ts i items).1 ↔
        (i ≤ j ∧ j < i + items.length ∧ sf.sendVideo j = none ∧
          (sf.sendErrNote j).isSome) := by
  intro items
  induction items with
  | nil =>
    intro i j
    simp only [reportLoop, List.not_mem_nil, false_iff, List.length_nil, Nat.add_zero]
    rintro ⟨h1, h2, _⟩
    omega
  | cons d rest ih =>
    intro i j
    have hlen : (d :: rest).length = rest.length + 1 := rfl
    cases hv : sf.sendVideo i with
    | some mid =>
      rw [show (reportLoop chat sf ts i (d :: rest)).1 =
        REvent.media i :: REvent.sleep :: (reportLoop chat sf ts (i + 1) rest).1 by
          simp [reportLoop, hv]]
      simp only [List.mem_cons, reduceCtorEq, false_or]
      rw [ih (i + 1) j]
      constructor
      · rintro ⟨h1, h2, h3, h4⟩
        exact ⟨by omega, by rw [hlen]; omega, h3, h4⟩
      · rintro ⟨h1, h2, h3, h4⟩
        rw [hlen] at h2
        have hji : j ≠ i := by
          intro hji
          rw [hji, hv] at h3
          cases h3
        exact ⟨by omega, by omega, h3, h4⟩
    | none =>
      cases he : sf.sendErrNote i with
      | some mid =>
        rw [show (reportLoop chat sf ts i (d :: rest)).1 =
          REvent.mediaFail i :: REvent.errNote i ::
            (reportLoop chat sf ts (i + 1) rest).1 by
          simp [reportLoop, hv, he]]
        simp only [List.mem_cons, reduceCtorEq, false_or, REvent.errNote.injEq]
        rw [ih (i + 1) j]
        constructor
        · rintro (h | ⟨h1, h2, h3, h4⟩)
          · subst h
            exact ⟨Nat.le_refl j, by rw [hlen]; omega, hv, by rw [he]; rfl⟩
          · exact ⟨by omega, by rw [hlen]; omega, h3, h4⟩
        · rintro ⟨h1, h2, h3, h4⟩
          rw [hlen] at h2
          by_cases hji : j = i
          · exact Or.inl hji
          · exact Or.inr ⟨by omega, by omega, h3, h4⟩
      | none =>
        rw [show (reportLoop chat sf ts i (d :: rest)).1 =
          REvent.mediaFail i :: REvent.errNoteFail i ::
            (reportLoop chat sf ts (i + 1) rest).1 by
          simp [reportLoop, hv, he]]
        simp only [List.mem_cons, reduceCtorEq, false_or]
        rw [ih (i + 1) j]
        constructor
        · rintro ⟨h1, h2, h3, h4⟩
          exact ⟨by omega, by rw [hlen]; omega, h3, h4⟩
        · rintro ⟨h1, h2, h3, h4⟩
          rw [hlen] at h2
          have hji : j ≠ i := by
            intro hji
            rw [hji, he] at h4
            cases h4
          exact ⟨by omega, by omega, h3, h4⟩

/-- Store for the spec's 3-set scenario: three distinct videos, each
posted twice in chat 1. -/
def scenarioVideos : List VideoRow :=
  [{ file_unique_id := 1, file_id := 11, count := 2, first_seen := 0, chat_id := 1
     message_id := 1 },
   { file_unique_id := 1, file_id := 11, count := 2, first_seen := 0, chat_id := 1
     message_id := 2 },
   { file_unique_id := 2, file_id := 22, count := 2, first_seen := 0, chat_id := 1
     message_id := 3 },
   { file_unique_id := 2, file_id := 22, count := 2, first_seen := 0, chat_id := 1
     message_id := 4 },
   { file_unique_id := 3, file_id := 33, count := 2, first_seen := 0, chat_id := 1
     message_id := 5 },
   { file_unique_id := 3, file_id := 33, count := 2, first_seen := 0, chat_id := 1
     message_id := 6 }]

/-- Surface for the scenario: sending item 2 fails, everything else
succeeds. -/
def scenarioSurface : ReportSurface :=
  { sendVideo := fun i => if i = 2 then none else some (600 + i)
    sendErrNote := fun i => some (700 + i) }

/-- **C5.**  In every /report run, a send failure for one item never
aborts the rest: every item of the reported window is attempted; the
per-item error notice is recorded (as an `error` artifact, and its event
occurs) exactly for the items whose video send failed and whose notice
send succeeded; `videos_sent` and the stored `video` artifacts both count
exactly the successful sends; and the summary's set count is the number of
duplicate sets found.  Concretely: with 3 sets and item 2 failing, items 1
and 3 are sent and recorded and the summary reports 2 successful sends of
3 sets found. -/
theorem report_failures_isolated (v : List VideoRow) (chat : Int)
    (headerMid ts : Nat) (sf : ReportSurface) :
    (∀ j, 1 ≤ j → j < 1 + ((listDuplicateSets v).take MAX_REPORT_VIDEOS).length →
      REvent.media j ∈ (report_command v chat headerMid ts sf).events ∨
      REvent.mediaFail j ∈ (report_command v chat headerMid ts sf).events) ∧
    (∀ j, REvent.errNote j ∈ (report_command v chat headerMid ts sf).events ↔
      (1 ≤ j ∧ j < 1 + ((listDuplicateSets v).take MAX_REPORT_VIDEOS).length ∧
        sf.sendVideo j = none ∧ (sf.sendErrNote j).isSome)) ∧
    (report_command v chat headerMid ts sf).videos_sent =
      ((ranks 1 ((listDuplicateSets v).take MAX_REPORT_VIDEOS).length).filter
        fun j => (sf.sendVideo j).isSome).length ∧
    ((report_command v chat headerMid ts sf).artifacts.filter
        fun a => a.report_type == RKind.video).length =
      ((ranks 1 ((listDuplicateSets v).take MAX_REPORT_VIDEOS).length).filter
        fun j => (sf.sendVideo j).isSome).length ∧
    ((report_command v chat headerMid ts sf).artifacts.filter
        fun a => a.report_type == RKind.error).length =
      ((ranks 1 ((listDuplicateSets v).take MAX_REPORT_VIDEOS).length).filter
        fun j => (sf.sendVideo j).isNone && (sf.sendErrNote j).isSome).length ∧
    (report_command v chat headerMid ts sf).sets_found =
      (listDuplicateSets v).length ∧
    (report_command scenarioVideos 1 500 7 scenarioSurface).sets_found = 3 ∧
    (report_command scenarioVideos 1 500 7 scenarioSurface).videos_sent = 2 ∧
    (report_command scenarioVideos 1 500 7 scenarioSurface).artifacts =
      [{ chat_id := 1, message_id := 500, report_type := RKind.header, created_at := 7 },
       { chat_id := 1, message_id := 601, report_type := RKind.video, created_at := 7 },
       { chat_id := 1, message_id := 702, report_type := RKind.error, created_at := 7 },
       { chat_id := 1, message_id := 603, report_type := RKind.video, created_at := 7 }] := by
  by_cases h : (listDuplicateSets v).isEmpty
  · have hemp : listDuplicateSets v = [] := List.isEmpty_iff.mp h
    have hnil : (listDuplicateSets v).take MAX_REPORT_VIDEOS = [] := by
      rw [hemp]
      rfl
    simp only [report_command, if_pos h]
    refine ⟨?_, ?_, ?_, ?_, ?_, ?_, by decide, by decide, by decide⟩
    · intro j h1 h2
      rw [hnil] at h2
      simp only [List.length_nil] at h2
      omega
    · intro j
      rw [hnil]
      simp only [List.length_nil]
      constructor
      · intro hmem
        rcases List.mem_cons.mp hmem with habs | habs
        · exact REvent.noConfusion habs
        · cases habs
      · rintro ⟨h1, h2, _⟩
        omega
    · rw [hnil]
      rfl
    · rw [hnil]
      rfl
    · rw [hnil]
      rfl
    · rw [hemp]
      rfl
  · obtain ⟨hc1, hc2, hc3⟩ :=
      reportLoop_counts chat sf ts ((listDuplicateSets v).take MAX_REPORT_VIDEOS) 1
    simp only [report_command, if_neg h]
    refine ⟨?_, ?_, hc1, ?_, ?_, by trivial, by decide, by decide, by decide⟩
    · intro j h1 h2
      rcases reportLoop_mem_attempt chat sf ts
          ((listDuplicateSets v).take MAX_REPORT_VIDEOS) 1 j h1 h2 with hm | hm
      · exact Or.inl (List.mem_cons_of_mem _ hm)
      · exact Or.inr (List.mem_cons_of_mem _ hm)
    · intro j
      constructor
      · intro hmem
        rcases List.mem_cons.mp hmem with habs | hmem'
        · exact REvent.noConfusion habs
        · exact (reportLoop_mem_errNote chat sf ts _ 1 j).mp hmem'
      · intro hr
        exact List.mem_cons_of_mem _ ((reportLoop_mem_errNote chat sf ts _ 1 j).mpr hr)
    · show (((reportLoop chat sf ts 1 ((listDuplicateSets v).take MAX_REPORT_VIDEOS)).2.1).filter
          fun a => a.report_type == RKind.video).length = _
      exact hc2
    · show (((reportLoop chat sf ts 1 ((listDuplicateSets v).take MAX_REPORT_VIDEOS)).2.1).filter
          fun a => a.report_type == RKind.error).length = _
      exact hc3

/-! ### The /stats command -/

/-- Statistics assembled by /stats. -/
structure Stats where
  total_videos : Nat
  unique_videos : Nat
  duplicate_sets : Nat
  total_duplicates : Nat
  report_messages : Nat
  oldest : Option Nat
deriving DecidableEq, Repr

/-- The fourth /stats query,
`SELECT SUM(COUNT(*) - 1) FROM videos GROUP BY file_unique_id HAVING
COUNT(*) > 1`, nests the aggregate COUNT inside SUM.  SQLite rejects
nested aggregates when preparing the statement —
`sqlite3.OperationalError: misuse of aggregate function COUNT()` — so the
query raises for every database state, data-independently. -/
def totalDuplicatesQuery (v : List VideoRow) : Except String Nat :=
  Except.error "misuse of aggregate function COUNT()"

/-- The /stats handler body: the five queries and the assembled reply.
The whole body sits in one try/except, so the failing fourth query aborts
the command and the user gets the generic "Could not retrieve statistics."
notice (modelled as `Except.error`). -/
def stats_command (s : Store) (chat : Int) : Except String Stats := do
  let total := s.videos.length
  let uniq := (groupKeys s.videos).length
  let dupSets := ((groupKeys s.videos).filter
    fun k => decide (1 < countFor s.videos k)).length
  let totalDup ← totalDuplicatesQuery s.videos
  let reports := (s.report_messages.filter fun a => a.chat_id == chat).length
  let oldest := (s.videos.map fun r => r.first_seen).min?
  Except.ok { total_videos := total, unique_videos := uniq, duplicate_sets := dupSets
              total_duplicates := totalDup, report_messages := reports
              oldest := oldest }

/-- The value the specification assigns to `total_excess_duplicates`: the
sum over duplicate sets (keys with more than one stored occurrence) of
`count − 1`.  Stated from the spec, for comparison with the failing
query. -/
def specTotalExcessDuplicates (v : List VideoRow) : Nat :=
  ((groupKeys v).filter fun k => decide (1 < countFor v k)).foldr
    (fun k acc => (countFor v k - 1) + acc) 0

/-- **C7 (code bug).**  The /stats total-duplicates SQL is invalid (nested
aggregate), so the statistics command errors on EVERY store — /stats never
returns any `total_excess_duplicates` — although at the demo store the
value the spec calls for is 1. -/
theorem stats_total_duplicates_unavailable :
    (∀ (s : Store) (chat : Int), stats_command s chat =
      Except.error "misuse of aggregate function COUNT()") ∧
    specTotalExcessDuplicates demoStore.videos = 1 := by
  constructor
  · intro s chat
    rfl
  · decide

end CheckDupVideo
